import Mathlib

/-!
# Verification of `generate_associations.py` (PP-FedSLAM)

Shallow embedding of the timestamp-association utility: the record parser
`read_file_list`, the greedy nearest-timestamp matcher `associate`, the
output writer, and the run orchestration with its error handling.

Timestamps are modelled as exact rationals.  Python floats are IEEE-754
binary64 values, each of which is an exact rational; where a claim is
settled at concrete decimal literals, the constants below are the exact
rational values of the binary64 doubles nearest to those literals (the
values Python's float literal / `float()` produces).  All arithmetic the
program performs on these particular values (subtraction of same-binade
doubles whose difference is representable, absolute value, comparison) is
exact in binary64, so exact rational arithmetic on the double values
coincides with the program's float arithmetic at these inputs.
-/

/-- A parsed record, as built by `read_file_list`: a `(timestamp, content)`
pair.  The timestamp is an exact rational (see module comment); the content
is the rest of the line. -/
abbrev Record := ℚ × String

/-- Python's `abs` on a (real-valued) number. -/
def rabs (x : ℚ) : ℚ := if x < 0 then -x else x

/-- The comparison `diff < min_diff` from the inner loop of `associate`,
where `min_diff` starts as `float('inf')`, modelled by `none`: every finite
difference is below infinity. -/
def ltInf (d : ℚ) : Option ℚ → Bool
  | none => true
  | some m => decide (d < m)

/-- The acceptance test `min_diff < max_difference` at the end of a row of
`associate`; `none` models `float('inf')` (the second list was empty), which
is never below a finite tolerance. -/
def acceptBest : Option ℚ → ℚ → Bool
  | none, _ => false
  | some m, c => decide (m < c)

/-- The inner loop of `associate`: scan `second` from index `j` with running
state `(min_diff, best_match_index)`, updating on a strict decrease of the
absolute timestamp difference (so the first index attaining the minimum is
kept).  Initial state in the source is `(float('inf'), -1)`, i.e.
`(none, -1)`. -/
def findBest (t1 : ℚ) : List Record → ℕ → Option ℚ → ℤ → Option ℚ × ℤ
  | [], _, minDiff, best => (minDiff, best)
  | r :: rest, j, minDiff, best =>
    if ltInf (rabs (t1 - r.1)) minDiff then
      findBest t1 rest (j + 1) (some (rabs (t1 - r.1))) (j : ℤ)
    else findBest t1 rest (j + 1) minDiff best

/-- One iteration of the outer loop of `associate` for a first-list
timestamp `t1`: run the inner scan from `(float('inf'), -1)` and return the
best index when `min_diff < max_difference`, nothing otherwise. -/
def associateRow (second : List Record) (maxDifference : ℚ) (t1 : ℚ) : Option ℤ :=
  if acceptBest (findBest t1 second 0 none (-1)).1 maxDifference then
    some (findBest t1 second 0 none (-1)).2
  else none

/-- The outer loop of `associate` over `enumerate(first_list)` starting at
index `i`, appending `(i, best_match_index)` for each accepted row. -/
def associateFrom (second : List Record) (maxDifference : ℚ) :
    List Record → ℕ → List (ℕ × ℤ)
  | [], _ => []
  | r :: rest, i =>
    match associateRow second maxDifference r.1 with
    | some j => (i, j) :: associateFrom second maxDifference rest (i + 1)
    | none => associateFrom second maxDifference rest (i + 1)

/-- `associate(first_list, second_list, max_difference)` from
`generate_associations.py`. -/
def associate (first second : List Record) (maxDifference : ℚ) : List (ℕ × ℤ) :=
  associateFrom second maxDifference first 0

/-- The absolute timestamp difference between `t1` and entry `k` of `l`
(out-of-range indices read a default record). -/
def diffAt (t1 : ℚ) (l : List Record) (k : ℕ) : ℚ := rabs (t1 - (l.getD k (0, "")).1)

theorem diffAt_cons_zero (t1 : ℚ) (r : Record) (l : List Record) :
    diffAt t1 (r :: l) 0 = rabs (t1 - r.1) := rfl

theorem diffAt_cons_succ (t1 : ℚ) (r : Record) (l : List Record) (k : ℕ) :
    diffAt t1 (r :: l) (k + 1) = diffAt t1 l k := rfl

/-- Reference form of the inner scan of `associate`: the minimum absolute
timestamp difference over the list together with the first (lowest) index
attaining it; `none` for the empty list. -/
def argminFirst (t1 : ℚ) : List Record → Option (ℚ × ℕ)
  | [] => none
  | r :: rest =>
    match argminFirst t1 rest with
    | none => some (rabs (t1 - r.1), 0)
    | some (m, k) =>
      if m < rabs (t1 - r.1) then some (m, k + 1) else some (rabs (t1 - r.1), 0)

theorem argminFirst_cons (t1 : ℚ) (r : Record) (rest : List Record) :
    argminFirst t1 (r :: rest) =
      match argminFirst t1 rest with
      | none => some (rabs (t1 - r.1), 0)
      | some (m, k) =>
        if m < rabs (t1 - r.1) then some (m, k + 1) else some (rabs (t1 - r.1), 0) := rfl

theorem argminFirst_eq_none (t1 : ℚ) (l : List Record) (h : argminFirst t1 l = none) :
    l = [] := by
  cases l with
  | nil => rfl
  | cons r rest =>
    exfalso
    rw [argminFirst_cons] at h
    cases hrest : argminFirst t1 rest with
    | none => rw [hrest] at h; simp at h
    | some p =>
      rcases p with ⟨m, k⟩
      rw [hrest] at h
      by_cases hc : m < rabs (t1 - r.1) <;> simp [hc] at h

theorem findBest_nil (t1 : ℚ) (j : ℕ) (mo : Option ℚ) (b : ℤ) :
    findBest t1 [] j mo b = (mo, b) := rfl

theorem findBest_cons (t1 : ℚ) (r : Record) (rest : List Record) (j : ℕ)
    (mo : Option ℚ) (b : ℤ) :
    findBest t1 (r :: rest) j mo b =
      if ltInf (rabs (t1 - r.1)) mo then
        findBest t1 rest (j + 1) (some (rabs (t1 - r.1))) (j : ℤ)
      else findBest t1 rest (j + 1) mo b := rfl

theorem if_ltInf_none {α : Sort _} (d : ℚ) (a b : α) :
    (if ltInf d none then a else b) = a := rfl

theorem if_ltInf_some {α : Sort _} (d m : ℚ) (a b : α) :
    (if ltInf d (some m) then a else b) = if d < m then a else b := by
  simp only [ltInf, decide_eq_true_eq]

theorem if_acceptBest_none {α : Sort _} (c : ℚ) (a b : α) :
    (if acceptBest none c then a else b) = b := rfl

theorem if_acceptBest_some {α : Sort _} (m c : ℚ) (a b : α) :
    (if acceptBest (some m) c then a else b) = if m < c then a else b := by
  simp only [acceptBest, decide_eq_true_eq]

/-- Running the inner scan with a finite accumulator `(some m, b)`:
the result keeps `(some m, b)` unless the rest of the list attains a
strictly smaller difference, in which case the first index attaining the
minimum of the rest wins. -/
theorem findBest_acc_some (t1 : ℚ) :
    ∀ (l : List Record) (m' : ℚ) (k : ℕ), argminFirst t1 l = some (m', k) →
      ∀ (j : ℕ) (m : ℚ) (b : ℤ),
        findBest t1 l j (some m) b =
          if m' < m then (some m', ((j + k : ℕ) : ℤ)) else (some m, b) := by
  intro l
  induction l with
  | nil => intro m' k h; exact absurd h (by simp [argminFirst])
  | cons r rest ih =>
    intro m' k h j m b
    rw [argminFirst_cons] at h
    rw [findBest_cons, if_ltInf_some]
    cases hrest : argminFirst t1 rest with
    | none =>
      have hnil : rest = [] := argminFirst_eq_none t1 rest hrest
      rw [hrest] at h
      simp only [Option.some.injEq, Prod.mk.injEq] at h
      obtain ⟨hm', hk⟩ := h
      subst hnil; subst hm'; subst hk
      by_cases hdm : rabs (t1 - r.1) < m
      · rw [if_pos hdm, findBest_nil, if_pos hdm]
        norm_num
      · rw [if_neg hdm, findBest_nil, if_neg hdm]
    | some p =>
      rcases p with ⟨m₀, k₀⟩
      rw [hrest] at h
      dsimp only at h
      by_cases hmd : m₀ < rabs (t1 - r.1)
      · rw [if_pos hmd] at h
        simp only [Option.some.injEq, Prod.mk.injEq] at h
        obtain ⟨hm', hk⟩ := h
        subst hm'; subst hk
        by_cases hdm : rabs (t1 - r.1) < m
        · rw [if_pos hdm, ih m₀ k₀ hrest, if_pos hmd,
            if_pos (lt_trans hmd hdm)]
          have harith : j + 1 + k₀ = j + (k₀ + 1) := by omega
          rw [harith]
        · rw [if_neg hdm, ih m₀ k₀ hrest]
          have harith : j + 1 + k₀ = j + (k₀ + 1) := by omega
          rw [harith]
      · rw [if_neg hmd] at h
        simp only [Option.some.injEq, Prod.mk.injEq] at h
        obtain ⟨hm', hk⟩ := h
        subst hm'; subst hk
        by_cases hdm : rabs (t1 - r.1) < m
        · rw [if_pos hdm, ih m₀ k₀ hrest, if_neg hmd, if_pos hdm]
          norm_num
        · rw [if_neg hdm, ih m₀ k₀ hrest]
          have hnm : ¬ m₀ < m := by
            push_neg at hmd hdm ⊢
            exact le_trans hdm hmd
          rw [if_neg hnm, if_neg hdm]

/-- Running the inner scan from the source's initial state
`(float('inf'), -1)`: for a non-empty list the result is the minimum
difference together with the first index attaining it. -/
theorem findBest_start (t1 : ℚ) (l : List Record) (m : ℚ) (k : ℕ)
    (h : argminFirst t1 l = some (m, k)) (j : ℕ) (b : ℤ) :
    findBest t1 l j none b = (some m, ((j + k : ℕ) : ℤ)) := by
  cases l with
  | nil => exact absurd h (by simp [argminFirst])
  | cons r rest =>
    rw [argminFirst_cons] at h
    rw [findBest_cons, if_ltInf_none]
    cases hrest : argminFirst t1 rest with
    | none =>
      have hnil : rest = [] := argminFirst_eq_none t1 rest hrest
      rw [hrest] at h
      simp only [Option.some.injEq, Prod.mk.injEq] at h
      obtain ⟨hm, hk⟩ := h
      subst hnil; subst hm; subst hk
      rw [findBest_nil]
      norm_num
    | some p =>
      rcases p with ⟨m₀, k₀⟩
      rw [hrest] at h
      dsimp only at h
      rw [findBest_acc_some t1 rest m₀ k₀ hrest]
      by_cases hmd : m₀ < rabs (t1 - r.1)
      · rw [if_pos hmd] at h
        simp only [Option.some.injEq, Prod.mk.injEq] at h
        obtain ⟨hm, hk⟩ := h
        subst hm; subst hk
        rw [if_pos hmd]
        have harith : j + 1 + k₀ = j + (k₀ + 1) := by omega
        rw [harith]
      · rw [if_neg hmd] at h
        simp only [Option.some.injEq, Prod.mk.injEq] at h
        obtain ⟨hm, hk⟩ := h
        subst hm; subst hk
        rw [if_neg hmd]
        norm_num

/-- Specification of `argminFirst`: it returns a valid index, its value is
the difference at that index, the value is a lower bound on all
differences, and all strictly earlier indices have strictly larger
differences (the first minimum wins). -/
theorem argminFirst_spec (t1 : ℚ) :
    ∀ (l : List Record) (m : ℚ) (k : ℕ), argminFirst t1 l = some (m, k) →
      k < l.length ∧ m = diffAt t1 l k ∧
      (∀ k', k' < l.length → m ≤ diffAt t1 l k') ∧
      (∀ k', k' < k → m < diffAt t1 l k') := by
  intro l
  induction l with
  | nil => intro m k h; exact absurd h (by simp [argminFirst])
  | cons r rest ih =>
    intro m k h
    rw [argminFirst_cons] at h
    cases hrest : argminFirst t1 rest with
    | none =>
      have hnil : rest = [] := argminFirst_eq_none t1 rest hrest
      rw [hrest] at h
      dsimp only at h
      simp only [Option.some.injEq, Prod.mk.injEq] at h
      obtain ⟨hm, hk⟩ := h
      subst hnil; subst hm; subst hk
      refine ⟨by simp, rfl, ?_, by omega⟩
      intro k' hk'
      have hk0 : k' = 0 := by simpa [Nat.lt_one_iff] using hk'
      subst hk0
      exact le_refl _
    | some p =>
      rcases p with ⟨m₀, k₀⟩
      rw [hrest] at h
      dsimp only at h
      obtain ⟨hlen, hval, hmin, hleast⟩ := ih m₀ k₀ hrest
      by_cases hmd : m₀ < rabs (t1 - r.1)
      · rw [if_pos hmd] at h
        simp only [Option.some.injEq, Prod.mk.injEq] at h
        obtain ⟨hm, hk⟩ := h
        subst hm; subst hk
        refine ⟨by simpa using hlen, by rwa [diffAt_cons_succ], ?_, ?_⟩
        · intro k' hk'
          cases k' with
          | zero => rw [diffAt_cons_zero]; exact le_of_lt hmd
          | succ k'' =>
            rw [diffAt_cons_succ]
            exact hmin k'' (by simpa using hk')
        · intro k' hk'
          cases k' with
          | zero => rw [diffAt_cons_zero]; exact hmd
          | succ k'' =>
            rw [diffAt_cons_succ]
            exact hleast k'' (by omega)
      · rw [if_neg hmd] at h
        simp only [Option.some.injEq, Prod.mk.injEq] at h
        obtain ⟨hm, hk⟩ := h
        subst hm; subst hk
        push_neg at hmd
        refine ⟨by simp, rfl, ?_, by omega⟩
        intro k' hk'
        cases k' with
        | zero => exact le_refl _
        | succ k'' =>
          rw [diffAt_cons_succ]
          exact le_trans hmd (hmin k'' (by simpa using hk'))

/-- The inner scan on the empty second list never accepts: `min_diff`
stays `float('inf')` and the row yields no association. -/
theorem associateRow_nil (maxDifference t1 : ℚ) :
    associateRow [] maxDifference t1 = none := rfl

/-- Characterisation of an accepted row of `associate`: the returned index
is the first index attaining the minimum absolute timestamp difference over
the second list, and that minimum is strictly below the tolerance. -/
theorem associateRow_eq_some (second : List Record) (maxDifference t1 : ℚ) (j : ℤ)
    (h : associateRow second maxDifference t1 = some j) :
    ∃ k : ℕ, j = (k : ℤ) ∧ k < second.length ∧
      diffAt t1 second k < maxDifference ∧
      (∀ k', k' < second.length → diffAt t1 second k ≤ diffAt t1 second k') ∧
      (∀ k', k' < k → diffAt t1 second k < diffAt t1 second k') := by
  unfold associateRow at h
  cases hmin : argminFirst t1 second with
  | none =>
    have hnil : second = [] := argminFirst_eq_none t1 second hmin
    subst hnil
    rw [findBest_nil] at h
    rw [if_acceptBest_none] at h
    exact absurd h (by simp)
  | some p =>
    rcases p with ⟨m, k⟩
    rw [findBest_start t1 second m k hmin 0 (-1)] at h
    rw [if_acceptBest_some] at h
    by_cases hacc : m < maxDifference
    · rw [if_pos hacc] at h
      simp only [Option.some.injEq] at h
      obtain ⟨hlen, hval, hmin', hleast⟩ := argminFirst_spec t1 second m k hmin
      subst hval
      refine ⟨k, ?_, hlen, hacc, hmin', hleast⟩
      omega
    · rw [if_neg hacc] at h
      exact absurd h (by simp)

/-- The converse: if the first index attaining the minimum difference is
below the tolerance, the row accepts and returns exactly that index. -/
theorem associateRow_eq_some_of (second : List Record) (maxDifference t1 : ℚ)
    (m : ℚ) (k : ℕ) (hmin : argminFirst t1 second = some (m, k))
    (hacc : m < maxDifference) :
    associateRow second maxDifference t1 = some (k : ℤ) := by
  unfold associateRow
  rw [findBest_start t1 second m k hmin 0 (-1)]
  rw [if_acceptBest_some, if_pos hacc]
  norm_num

theorem associateFrom_nil (second : List Record) (maxDifference : ℚ) (n : ℕ) :
    associateFrom second maxDifference [] n = [] := rfl

theorem associateFrom_cons (second : List Record) (maxDifference : ℚ)
    (r : Record) (rest : List Record) (n : ℕ) :
    associateFrom second maxDifference (r :: rest) n =
      match associateRow second maxDifference r.1 with
      | some j => (n, j) :: associateFrom second maxDifference rest (n + 1)
      | none => associateFrom second maxDifference rest (n + 1) := rfl

/-- Membership in the outer loop of `associate`: the pair `(i, j)` is
emitted iff some position `k` of the (remaining) first list has row result
`some j`, with `i` the corresponding running index.  The row result depends
only on the first-list entry at `i` and on the second list. -/
theorem mem_associateFrom_iff (second : List Record) (maxDifference : ℚ) :
    ∀ (l : List Record) (n : ℕ) (i : ℕ) (j : ℤ),
      (i, j) ∈ associateFrom second maxDifference l n ↔
        ∃ k, k < l.length ∧ i = n + k ∧
          associateRow second maxDifference (l.getD k (0, "")).1 = some j := by
  intro l
  induction l with
  | nil =>
    intro n i j
    rw [associateFrom_nil]
    simp
  | cons r rest ih =>
    intro n i j
    rw [associateFrom_cons]
    cases hr : associateRow second maxDifference r.1 with
    | some j0 =>
      dsimp only
      rw [List.mem_cons]
      constructor
      · intro hmem
        rcases hmem with heq | htail
        · refine ⟨0, by simp, ?_, ?_⟩
          · have : i = n := by
              have := congrArg Prod.fst heq
              simpa using this
            omega
          · have hj : j = j0 := by
              have := congrArg Prod.snd heq
              simpa using this
            rw [hj]
            simpa using hr
        · obtain ⟨k, hk, hi, hrow⟩ := (ih (n + 1) i j).mp htail
          exact ⟨k + 1, by simpa using hk, by omega, by simpa using hrow⟩
      · intro hex
        obtain ⟨k, hk, hi, hrow⟩ := hex
        cases k with
        | zero =>
          left
          have hrow0 : associateRow second maxDifference r.1 = some j := by
            simpa using hrow
          rw [hr] at hrow0
          simp only [Option.some.injEq] at hrow0
          rw [hrow0]
          have : i = n := by omega
          rw [this]
        | succ k' =>
          right
          refine (ih (n + 1) i j).mpr ⟨k', by simpa using hk, by omega, ?_⟩
          simpa using hrow
    | none =>
      dsimp only
      rw [ih (n + 1) i j]
      constructor
      · intro hex
        obtain ⟨k, hk, hi, hrow⟩ := hex
        exact ⟨k + 1, by simpa using hk, by omega, by simpa using hrow⟩
      · intro hex
        obtain ⟨k, hk, hi, hrow⟩ := hex
        cases k with
        | zero =>
          have hrow0 : associateRow second maxDifference r.1 = some j := by
            simpa using hrow
          rw [hr] at hrow0
          exact absurd hrow0 (by simp)
        | succ k' =>
          exact ⟨k', by simpa using hk, by omega, by simpa using hrow⟩

/-- The output of the outer loop has at most one entry per first-list
entry. -/
theorem associateFrom_length_le (second : List Record) (maxDifference : ℚ) :
    ∀ (l : List Record) (n : ℕ),
      (associateFrom second maxDifference l n).length ≤ l.length := by
  intro l
  induction l with
  | nil => intro n; simp [associateFrom_nil]
  | cons r rest ih =>
    intro n
    rw [associateFrom_cons]
    cases hr : associateRow second maxDifference r.1 with
    | some j0 =>
      dsimp only
      simpa using Nat.succ_le_succ (ih (n + 1))
    | none =>
      dsimp only
      exact le_trans (ih (n + 1)) (by simp)

/-- Every emitted first-list index lies in `[n, n + |l|)`. -/
theorem associateFrom_fst_bounds (second : List Record) (maxDifference : ℚ)
    (l : List Record) (n : ℕ) (p : ℕ × ℤ)
    (hp : p ∈ associateFrom second maxDifference l n) :
    n ≤ p.1 ∧ p.1 < n + l.length := by
  rcases p with ⟨i, j⟩
  obtain ⟨k, hk, hi, _⟩ := (mem_associateFrom_iff second maxDifference l n i j).mp hp
  constructor <;> simp <;> omega

/-- The emitted first-list indices are strictly increasing in output
order. -/
theorem associateFrom_pairwise (second : List Record) (maxDifference : ℚ) :
    ∀ (l : List Record) (n : ℕ),
      (associateFrom second maxDifference l n).Pairwise (fun p q => p.1 < q.1) := by
  intro l
  induction l with
  | nil => intro n; simp [associateFrom_nil]
  | cons r rest ih =>
    intro n
    rw [associateFrom_cons]
    cases hr : associateRow second maxDifference r.1 with
    | some j0 =>
      dsimp only
      refine List.Pairwise.cons ?_ (ih (n + 1))
      intro q hq
      have := associateFrom_fst_bounds second maxDifference rest (n + 1) q hq
      omega
    | none =>
      dsimp only
      exact ih (n + 1)

/-- If the second list is empty, the inner scan never runs, `min_diff`
stays `float('inf')`, and no row accepts. -/
theorem associateFrom_second_nil (maxDifference : ℚ) :
    ∀ (l : List Record) (n : ℕ), associateFrom [] maxDifference l n = [] := by
  intro l
  induction l with
  | nil => intro n; rfl
  | cons r rest ih =>
    intro n
    rw [associateFrom_cons, associateRow_nil]
    exact ih (n + 1)

/-- The outer loop distributes over append: rows are matched independently,
so earlier first-list records do not consume second-list entries used by
later ones. -/
theorem associateFrom_append (second : List Record) (maxDifference : ℚ) :
    ∀ (l1 l2 : List Record) (n : ℕ),
      associateFrom second maxDifference (l1 ++ l2) n =
        associateFrom second maxDifference l1 n ++
          associateFrom second maxDifference l2 (n + l1.length) := by
  intro l1
  induction l1 with
  | nil => intro l2 n; simp [associateFrom_nil]
  | cons r rest ih =>
    intro l2 n
    rw [List.cons_append, associateFrom_cons, associateFrom_cons]
    cases hr : associateRow second maxDifference r.1 with
    | some j0 =>
      dsimp only
      rw [ih l2 (n + 1), List.cons_append]
      have harith : n + 1 + rest.length = n + (rest.length + 1) := by omega
      rw [harith]
      rfl
    | none =>
      dsimp only
      rw [ih l2 (n + 1)]
      have harith : n + 1 + rest.length = n + (rest.length + 1) := by omega
      rw [harith]
      rfl

/-- The exact rational value of the IEEE-754 binary64 double nearest to the
decimal literal `1.02` (the value Python's `float` holds for it). -/
def fp1_02 : ℚ := 4593671619917906 / 2 ^ 52

/-- The binary64 double nearest to `0.02` (the source's `MAX_DIFFERENCE`),
as an exact rational. -/
def fp0_02 : ℚ := 5764607523034235 / 2 ^ 58

/-- The binary64 double nearest to `0.021`, as an exact rational. -/
def fp0_021 : ℚ := 6052837899185947 / 2 ^ 58

/-- The binary64 double nearest to `0.95`, as an exact rational. -/
def fp0_95 : ℚ := 8556839292003942 / 2 ^ 53

/-- The binary64 double nearest to `1.05`, as an exact rational. -/
def fp1_05 : ℚ := 4728779608739021 / 2 ^ 52

/-- The binary64 double nearest to `0.06`, as an exact rational. -/
def fp0_06 : ℚ := 8646911284551352 / 2 ^ 57

/-- The binary64 double nearest to `999.99`, as an exact rational. -/
def fp999_99 : ℚ := 8796005061277778 / 2 ^ 43

/-- The binary64 double nearest to `1000.52`, as an exact rational. -/
def fp1000_52 : ℚ := 8800666990579548 / 2 ^ 43

/-- Claim C1: whenever `associate` emits a pair `(i, j)`, the index `j` is
the least index of the second list attaining the minimum absolute timestamp
difference to the `i`-th first-list timestamp: every index has a difference
at least as large, and every strictly earlier index has a strictly larger
difference (so on ties the lower index wins). -/
theorem c1_emitted_index_is_first_argmin (first second : List Record)
    (maxDifference : ℚ) (i : ℕ) (j : ℤ)
    (hmem : (i, j) ∈ associate first second maxDifference) :
    ∃ k : ℕ, j = (k : ℤ) ∧ k < second.length ∧
      (∀ k', k' < second.length →
        diffAt (first.getD i (0, "")).1 second k ≤
          diffAt (first.getD i (0, "")).1 second k') ∧
      (∀ k', k' < k →
        diffAt (first.getD i (0, "")).1 second k <
          diffAt (first.getD i (0, "")).1 second k') := by
  obtain ⟨k0, hk0, hi, hrow⟩ :=
    (mem_associateFrom_iff second maxDifference first 0 i j).mp hmem
  have hi0 : k0 = i := by omega
  subst hi0
  obtain ⟨k, hjk, hklen, _, hmin, hleast⟩ :=
    associateRow_eq_some second maxDifference (first.getD k0 (0, "")).1 j hrow
  exact ⟨k, hjk, hklen, hmin, hleast⟩

/-- Witness for C1 at the spec's P3 tie-break example (with the binary64
values of the literals): `first = [(1.0, "a")]`,
`second = [(0.95, "x"), (1.05, "y")]`, tolerance `0.06`; the pair `(0, 0)`
is emitted, and the emitted index 0 attains the minimum difference: its
difference is at most the one of the equidistant candidate at index 1. -/
theorem c1_emitted_index_is_first_argmin_witness :
    diffAt (([((1 : ℚ), "a")] : List Record).getD 0 (0, "")).1
        [(fp0_95, "x"), (fp1_05, "y")] 0 ≤
      diffAt (([((1 : ℚ), "a")] : List Record).getD 0 (0, "")).1
        [(fp0_95, "x"), (fp1_05, "y")] 1 := by
  obtain ⟨k, hk, hklen, hmin, hleast⟩ :=
    c1_emitted_index_is_first_argmin [((1 : ℚ), "a")] [(fp0_95, "x"), (fp1_05, "y")]
      fp0_06 0 0
      (by norm_num [associate, associateFrom, associateRow, findBest, rabs, ltInf,
        acceptBest, fp0_95, fp1_05, fp0_06])
  have hk0 : k = 0 := by omega
  subst hk0
  exact hmin 1 (by norm_num)

/-- Claim C2: acceptance is strictly below the tolerance: an emitted pair's
absolute timestamp difference is `< maxDifference`, never equal or above.
At the spec's boundary example (binary64 values of the literals
`1.00`, `1.02`): with tolerance `0.02` nothing is emitted, with `0.021` the
pair `(0, 0)` is emitted. -/
theorem c2_strict_tolerance :
    (∀ (first second : List Record) (maxDifference : ℚ) (i : ℕ) (j : ℤ),
      (i, j) ∈ associate first second maxDifference →
        diffAt (first.getD i (0, "")).1 second j.toNat < maxDifference) ∧
    associate [((1 : ℚ), "a")] [(fp1_02, "b")] fp0_02 = [] ∧
    associate [((1 : ℚ), "a")] [(fp1_02, "b")] fp0_021 = [(0, 0)] := by
  refine ⟨?_, ?_, ?_⟩
  · intro first second maxDifference i j hmem
    obtain ⟨k0, hk0, hi, hrow⟩ :=
      (mem_associateFrom_iff second maxDifference first 0 i j).mp hmem
    have hi0 : k0 = i := by omega
    subst hi0
    obtain ⟨k, hjk, hklen, hlt, _, _⟩ :=
      associateRow_eq_some second maxDifference (first.getD k0 (0, "")).1 j hrow
    have : j.toNat = k := by omega
    rw [this]
    exact hlt
  · norm_num [associate, associateFrom, associateRow, findBest, rabs, ltInf,
      acceptBest, fp1_02, fp0_02]
  · norm_num [associate, associateFrom, associateRow, findBest, rabs, ltInf,
      acceptBest, fp1_02, fp0_021]

/-- Witness for C2: the accepted pair of the `0.021` example has difference
strictly below the tolerance. -/
theorem c2_strict_tolerance_witness :
    diffAt (([((1 : ℚ), "a")] : List Record).getD 0 (0, "")).1
        [(fp1_02, "b")] (0 : ℤ).toNat < fp0_021 :=
  c2_strict_tolerance.1 [((1 : ℚ), "a")] [(fp1_02, "b")] fp0_021 0 0
    (by norm_num [associate, associateFrom, associateRow, findBest, rabs, ltInf,
      acceptBest, fp1_02, fp0_021])

/-- Claim C6: the output of `associate` has at most `|first|` entries, every
entry is a valid index pair into the two lists, the first components are
strictly increasing in output order, and no first-list index occurs
twice. -/
theorem c6_output_shape (first second : List Record) (maxDifference : ℚ) :
    (associate first second maxDifference).length ≤ first.length ∧
    (∀ p ∈ associate first second maxDifference,
      p.1 < first.length ∧ 0 ≤ p.2 ∧ p.2 < (second.length : ℤ)) ∧
    (associate first second maxDifference).Pairwise (fun p q => p.1 < q.1) ∧
    ((associate first second maxDifference).map Prod.fst).Nodup := by
  refine ⟨associateFrom_length_le second maxDifference first 0, ?_, ?_, ?_⟩
  · intro p hp
    rcases p with ⟨i, j⟩
    obtain ⟨k0, hk0, hi, hrow⟩ :=
      (mem_associateFrom_iff second maxDifference first 0 i j).mp hp
    obtain ⟨k, hjk, hklen, _, _, _⟩ :=
      associateRow_eq_some second maxDifference (first.getD k0 (0, "")).1 j hrow
    refine ⟨by omega, by omega, ?_⟩
    dsimp only
    rw [hjk]
    exact_mod_cast hklen
  · exact associateFrom_pairwise second maxDifference first 0
  · exact List.Pairwise.map Prod.fst (fun a b h => Nat.ne_of_lt h)
      (associateFrom_pairwise second maxDifference first 0)

/-- Witness for C6: the index-validity conjunct evaluated at a concrete
accepted pair. -/
theorem c6_output_shape_witness :
    ((0 : ℕ), (0 : ℤ)).1 < ([((1 : ℚ), "a")] : List Record).length ∧
    0 ≤ ((0 : ℕ), (0 : ℤ)).2 ∧
    ((0 : ℕ), (0 : ℤ)).2 < (([((1 : ℚ), "x")] : List Record).length : ℤ) :=
  (c6_output_shape [((1 : ℚ), "a")] [((1 : ℚ), "x")] 1).2.1 (0, 0)
    (by norm_num [associate, associateFrom, associateRow, findBest, rabs, ltInf,
      acceptBest])

/-- Claim C8: matching is many-to-one capable: two distinct first-list
indices may be paired with the same second-list index, and matching a
second-list entry never consumes it — the outer loop distributes over
append, so each first-list record is matched independently of the
others. -/
theorem c8_many_to_one :
    associate [((1 : ℚ), "a"), ((1 : ℚ), "b")] [((1 : ℚ), "x")] (1 / 50) =
      [(0, 0), (1, 0)] ∧
    (∀ (second : List Record) (maxDifference : ℚ) (l1 l2 : List Record) (n : ℕ),
      associateFrom second maxDifference (l1 ++ l2) n =
        associateFrom second maxDifference l1 n ++
          associateFrom second maxDifference l2 (n + l1.length)) := by
  constructor
  · norm_num [associate, associateFrom, associateRow, findBest, rabs, ltInf,
      acceptBest]
  · exact associateFrom_append

/-- Claim C9: `associate` is deterministic — it is a pure function of its
inputs, so two invocations on the same record lists and tolerance return
the identical association sequence. -/
theorem c9_deterministic (first second : List Record) (maxDifference : ℚ) :
    associate first second maxDifference = associate first second maxDifference := rfl

/-- Claim C10: `associate` is total beyond the spec's non-emptiness
precondition: with an empty second list it returns the empty sequence, and
the `-1` sentinel never escapes — every emitted second-list index is a
valid non-negative index. -/
theorem c10_sentinel_never_emitted :
    (∀ (first : List Record) (maxDifference : ℚ),
      associate first [] maxDifference = []) ∧
    (∀ (first second : List Record) (maxDifference : ℚ) (p : ℕ × ℤ),
      p ∈ associate first second maxDifference →
        0 ≤ p.2 ∧ p.2 < (second.length : ℤ) ∧ p.2 ≠ -1) := by
  constructor
  · intro first maxDifference
    exact associateFrom_second_nil maxDifference first 0
  · intro first second maxDifference p hp
    rcases p with ⟨i, j⟩
    obtain ⟨k0, hk0, hi, hrow⟩ :=
      (mem_associateFrom_iff second maxDifference first 0 i j).mp hp
    obtain ⟨k, hjk, hklen, _, _, _⟩ :=
      associateRow_eq_some second maxDifference (first.getD k0 (0, "")).1 j hrow
    refine ⟨by omega, ?_, by omega⟩
    dsimp only
    rw [hjk]
    exact_mod_cast hklen

/-- Witness for C10: the sentinel-freedom conjunct at a concrete accepted
pair. -/
theorem c10_sentinel_never_emitted_witness :
    0 ≤ ((0 : ℕ), (0 : ℤ)).2 ∧
    ((0 : ℕ), (0 : ℤ)).2 < (([((1 : ℚ), "y")] : List Record).length : ℤ) ∧
    ((0 : ℕ), (0 : ℤ)).2 ≠ -1 :=
  c10_sentinel_never_emitted.2 [((1 : ℚ), "c")] [((1 : ℚ), "y")] 1 (0, 0)
    (by norm_num [associate, associateFrom, associateRow, findBest, rabs, ltInf,
      acceptBest])

/-- Python `str.strip()` with no argument (ASCII whitespace): drop leading
and trailing whitespace characters. -/
def trimWs (l : List Char) : List Char :=
  ((l.dropWhile Char.isWhitespace).reverse.dropWhile Char.isWhitespace).reverse

/-- `line.startswith('#')` on the raw line. -/
def lineStartsWithHash : List Char → Bool
  | [] => false
  | c :: _ => decide (c = '#')

/-- Worker for Python `str.split()` with no argument: split on runs of
whitespace, never yielding empty pieces; `acc` holds the current word
reversed. -/
def splitWsAux : List Char → List Char → List (List Char)
  | [], acc => if acc = [] then [] else [acc.reverse]
  | c :: rest, acc =>
    if c.isWhitespace then
      if acc = [] then splitWsAux rest [] else acc.reverse :: splitWsAux rest []
    else splitWsAux rest (c :: acc)

/-- Python `str.split()` with no argument. -/
def splitWs (l : List Char) : List (List Char) := splitWsAux l []

/-- Python `' '.join(parts)`: concatenate the words with single spaces. -/
def joinWords : List (List Char) → List Char
  | [] => []
  | [w] => w
  | w :: ws => w ++ ' ' :: joinWords ws

/-- Longest prefix of decimal digits, and the remainder. -/
def takeDigits : List Char → List Char × List Char
  | [] => ([], [])
  | c :: rest =>
    if c.isDigit then
      match takeDigits rest with
      | (d, r) => (c :: d, r)
    else ([], c :: rest)

/-- Value of a digit string. -/
def digitsVal (l : List Char) : ℕ := l.foldl (fun a c => 10 * a + (c.toNat - 48)) 0

/-- Split a token at the first `e`/`E`, keeping what follows for the
exponent part (if any). -/
def splitAtExp : List Char → List Char × Option (List Char)
  | [] => ([], none)
  | c :: rest =>
    if c = 'e' ∨ c = 'E' then ([], some rest)
    else
      match splitAtExp rest with
      | (m, e) => (c :: m, e)

/-- The exponent part after `e`/`E`: optional sign then at least one
digit. -/
def parseExpPart : List Char → Option ℤ
  | [] => none
  | '+' :: r => if r ≠ [] ∧ r.all Char.isDigit then some ((digitsVal r : ℤ)) else none
  | '-' :: r => if r ≠ [] ∧ r.all Char.isDigit then some (-(digitsVal r : ℤ)) else none
  | l => if l.all Char.isDigit then some ((digitsVal l : ℤ)) else none

/-- The mantissa of a decimal token, as `(integer, power of ten)`:
`digits`, `digits.digits`, `.digits` or `digits.`, with at least one digit
overall. -/
def parseMantissaRep (l : List Char) : Option (ℤ × ℤ) :=
  match takeDigits l with
  | (ip, r) =>
    match r with
    | [] => if ip = [] then none else some ((digitsVal ip : ℤ), 0)
    | '.' :: r2 =>
      match takeDigits r2 with
      | (fp, r3) =>
        if r3 = [] ∧ ¬(ip = [] ∧ fp = []) then
          some ((digitsVal ip : ℤ) * 10 ^ fp.length + (digitsVal fp : ℤ),
            -(fp.length : ℤ))
        else none
    | _ => none

/-- An unsigned decimal token with optional exponent, as
`(integer, power of ten)`. -/
def parseUnsignedRep (l : List Char) : Option (ℤ × ℤ) :=
  match splitAtExp l with
  | (m, none) => parseMantissaRep m
  | (m, some e) =>
    match parseMantissaRep m, parseExpPart e with
    | some p, some ev => some (p.1, p.2 + ev)
    | _, _ => none

/-- A decimal token with optional sign, as `(integer, power of ten)`. -/
def parseFloatRep : List Char → Option (ℤ × ℤ)
  | '+' :: r => parseUnsignedRep r
  | '-' :: r => (parseUnsignedRep r).map (fun p => (-p.1, p.2))
  | l => parseUnsignedRep l

/-- The decimal-notation core of Python `float()` on one token: the exact
rational value `n * 10^e` of the parsed decimal.  Special spellings
(`inf`, `nan`, digit-group underscores, hex) are not modelled; no claim
depends on them.  (Python stores the binary64 nearest to this value; the
parsing claims — which lines are kept, payloads, order — do not depend on
that rounding.) -/
def parseFloat (l : List Char) : Option ℚ :=
  (parseFloatRep l).map (fun p => ((p.1 : ℚ)) * 10 ^ p.2)

/-- One iteration of the line loop of `read_file_list`: skip the line if it
is blank after stripping or its raw first character is `#`; otherwise split
it on whitespace, parse the first token as a float (silently skipping the
line on failure), and keep `(timestamp, ' '.join(parts[1:]))`. -/
def parseLineChars (l : List Char) : Option Record :=
  if trimWs l ≠ [] ∧ ¬ lineStartsWithHash l then
    match splitWs (trimWs l) with
    | [] => none
    | t :: rest =>
      match parseFloat t with
      | some ts => some (ts, String.mk (joinWords rest))
      | none => none
  else none

/-- `parseLineChars` on a `String` line. -/
def parseLine (line : String) : Option Record := parseLineChars line.toList

/-- `read_file_list` from `generate_associations.py`, over the list of
lines of an existing file (the missing-file branch is modelled in the run
orchestration below). -/
def read_file_list (lines : List String) : List Record := lines.filterMap parseLine

theorem parseLine_skip_blank (line : String) (h : trimWs line.toList = []) :
    parseLine line = none := by
  unfold parseLine parseLineChars
  rw [if_neg (fun hc => hc.1 h)]

theorem parseLine_skip_hash (line : String)
    (h : lineStartsWithHash line.toList = true) :
    parseLine line = none := by
  unfold parseLine parseLineChars
  rw [if_neg (fun hc => hc.2 h)]

theorem parseLine_skip_badtoken (line : String) (t : List Char)
    (rest : List (List Char)) (hsplit : splitWs (trimWs line.toList) = t :: rest)
    (hfloat : parseFloat t = none) : parseLine line = none := by
  unfold parseLine parseLineChars
  by_cases hcond : trimWs line.toList ≠ [] ∧ ¬ lineStartsWithHash line.toList
  · rw [if_pos hcond, hsplit]
    dsimp only
    rw [hfloat]
  · rw [if_neg hcond]

theorem parseLine_keep (line : String) (t : List Char) (rest : List (List Char))
    (v : ℚ) (hhash : lineStartsWithHash line.toList = false)
    (hsplit : splitWs (trimWs line.toList) = t :: rest)
    (hfloat : parseFloat t = some v) :
    parseLine line = some (v, String.mk (joinWords rest)) := by
  have htrim : trimWs line.toList ≠ [] := by
    intro h0
    rw [h0] at hsplit
    simp [splitWs, splitWsAux] at hsplit
  unfold parseLine parseLineChars
  rw [if_pos ⟨htrim, by intro hc; rw [hc] at hhash; simp at hhash⟩, hsplit]
  dsimp only
  rw [hfloat]

/-- Claim C4: the parser skips lines that are blank after stripping, skips
raw-`#` comment lines, silently skips lines whose first whitespace token
does not parse as a float, and keeps one record per remaining line with the
remaining tokens rejoined by single spaces, preserving file order; the
spec's P5 file parses to exactly `(1.234, "foo.png")` and
`(5.678, "bar.png")`. -/
theorem c4_parser_lenient :
    (∀ line : String, trimWs line.toList = [] → parseLine line = none) ∧
    (∀ line : String, lineStartsWithHash line.toList = true → parseLine line = none) ∧
    (∀ (line : String) (t : List Char) (rest : List (List Char)),
      splitWs (trimWs line.toList) = t :: rest → parseFloat t = none →
        parseLine line = none) ∧
    (∀ (line : String) (t : List Char) (rest : List (List Char)) (v : ℚ),
      lineStartsWithHash line.toList = false →
      splitWs (trimWs line.toList) = t :: rest → parseFloat t = some v →
        parseLine line = some (v, String.mk (joinWords rest))) ∧
    (∀ l1 l2 : List String,
      read_file_list (l1 ++ l2) = read_file_list l1 ++ read_file_list l2) ∧
    read_file_list ["# comment", "", "1.234 foo.png", "badline", "5.678 bar.png"] =
      [((1234 / 1000 : ℚ), "foo.png"), ((5678 / 1000 : ℚ), "bar.png")] := by
  refine ⟨parseLine_skip_blank, parseLine_skip_hash, parseLine_skip_badtoken,
    parseLine_keep, ?_, ?_⟩
  · intro l1 l2
    exact List.filterMap_append l1 l2 parseLine
  · have h1 : parseLine "# comment" = none := rfl
    have h2 : parseLine "" = none := rfl
    have h3 : parseLine "badline" = none := rfl
    have hf1 : parseFloat ['1', '.', '2', '3', '4'] = some ((1234 / 1000 : ℚ)) := by
      have hrep : parseFloatRep ['1', '.', '2', '3', '4'] = some (1234, -3) := rfl
      unfold parseFloat
      rw [hrep]
      norm_num [Option.map]
    have hf2 : parseFloat ['5', '.', '6', '7', '8'] = some ((5678 / 1000 : ℚ)) := by
      have hrep : parseFloatRep ['5', '.', '6', '7', '8'] = some (5678, -3) := rfl
      unfold parseFloat
      rw [hrep]
      norm_num [Option.map]
    have h4 : parseLine "1.234 foo.png" = some ((1234 / 1000 : ℚ), "foo.png") :=
      parseLine_keep "1.234 foo.png" ['1', '.', '2', '3', '4']
        [['f', 'o', 'o', '.', 'p', 'n', 'g']] (1234 / 1000) rfl rfl hf1
    have h5 : parseLine "5.678 bar.png" = some ((5678 / 1000 : ℚ), "bar.png") :=
      parseLine_keep "5.678 bar.png" ['5', '.', '6', '7', '8']
        [['b', 'a', 'r', '.', 'p', 'n', 'g']] (5678 / 1000) rfl rfl hf2
    simp only [read_file_list, List.filterMap_cons, h1, h2, h3, h4, h5,
      List.filterMap_nil]

/-- Witness for C4: the comment-skip conjunct applied at a concrete
comment line. -/
theorem c4_parser_lenient_witness : parseLine "# a comment line" = none :=
  c4_parser_lenient.2.1 "# a comment line" rfl

/-- Round to the nearest integer, ties to even — the rounding used by
Python's fixed-point string formatting of a binary64 value. -/
def rhe (x : ℚ) : ℤ :=
  if x - ⌊x⌋ < 1 / 2 then ⌊x⌋
  else if 1 / 2 < x - ⌊x⌋ then ⌊x⌋ + 1
  else if ⌊x⌋ % 2 = 0 then ⌊x⌋ else ⌊x⌋ + 1

/-- Decimal digits of `n` left-padded with zeros to six digits (the
fractional field of `%.6f`). -/
def padSix (n : ℕ) : String :=
  String.mk (List.replicate (6 - (toString n).length) '0') ++ toString n

/-- Python `f"{x:.6f}"`: fixed-point with exactly six digits after the
decimal point, rounding half to even on the exact (rational) value of the
binary64 input.  (The timestamps formatted by this program are
nonnegative; the negative branch mirrors the sign prefix.) -/
def fix6 (x : ℚ) : String :=
  if rhe (x * 1000000) < 0 then
    "-" ++ toString ((-rhe (x * 1000000)).toNat / 1000000) ++ "." ++
      padSix ((-rhe (x * 1000000)).toNat % 1000000)
  else
    toString ((rhe (x * 1000000)).toNat / 1000000) ++ "." ++
      padSix ((rhe (x * 1000000)).toNat % 1000000)

/-- Python list indexing `l[j]` with an `int` index: negative indices
count from the end of the list; out of range is an error (`none`). -/
def pyGet (l : List Record) (j : ℤ) : Option Record :=
  if 0 ≤ j then l.get? j.toNat
  else if 0 ≤ j + (l.length : ℤ) then l.get? (j + (l.length : ℤ)).toNat else none

/-- The output loop of `generate_associations`: for each association
`(i, j)` in sequence order, one line
`f"{ts_rgb:.6f} {fn_rgb} {ts_depth:.6f} {fn_depth}"`; `none` if an index
is out of range (where Python would raise). -/
def writeAssocLines (first second : List Record) : List (ℕ × ℤ) → Option (List String)
  | [] => some []
  | (i, j) :: rest =>
    match first.get? i, pyGet second j, writeAssocLines first second rest with
    | some r1, some r2, some ls =>
      some ((fix6 r1.1 ++ " " ++ r1.2 ++ " " ++ fix6 r2.1 ++ " " ++ r2.2) :: ls)
    | _, _, _ => none

theorem writeAssocLines_cons (first second : List Record) (i : ℕ) (j : ℤ)
    (rest : List (ℕ × ℤ)) :
    writeAssocLines first second ((i, j) :: rest) =
      match first.get? i, pyGet second j, writeAssocLines first second rest with
      | some r1, some r2, some ls =>
        some ((fix6 r1.1 ++ " " ++ r1.2 ++ " " ++ fix6 r2.1 ++ " " ++ r2.2) :: ls)
      | _, _, _ => none := rfl

/-- The writer emits exactly one line per association. -/
theorem writeAssocLines_length (first second : List Record) :
    ∀ (assocs : List (ℕ × ℤ)) (ls : List String),
      writeAssocLines first second assocs = some ls → ls.length = assocs.length := by
  intro assocs
  induction assocs with
  | nil =>
    intro ls h
    simp only [writeAssocLines, Option.some.injEq] at h
    rw [← h]
    rfl
  | cons p rest ih =>
    rcases p with ⟨i, j⟩
    intro ls h
    rw [writeAssocLines_cons] at h
    cases hg1 : first.get? i with
    | none => rw [hg1] at h; simp at h
    | some r1 =>
      rw [hg1] at h
      cases hg2 : pyGet second j with
      | none => rw [hg2] at h; simp at h
      | some r2 =>
        rw [hg2] at h
        cases hg3 : writeAssocLines first second rest with
        | none => rw [hg3] at h; simp at h
        | some ls' =>
          rw [hg3] at h
          simp only [Option.some.injEq] at h
          rw [← h]
          simp only [List.length_cons, ih ls' hg3]

/-- Claim C3: the writer emits one line per association in sequence order
(four whitespace-separated fields, timestamps with six digits after the
point), and the end-to-end run on the spec's E2E inputs (binary64 values
of the literals) with the source tolerance `0.02` writes exactly the two
expected lines. -/
theorem c3_end_to_end :
    (∀ (first second : List Record) (assocs : List (ℕ × ℤ)) (ls : List String),
      writeAssocLines first second assocs = some ls → ls.length = assocs.length) ∧
    writeAssocLines [((1000 : ℚ), "rgb1.png"), ((2001 / 2 : ℚ), "rgb2.png")]
        [(fp999_99, "d1.png"), (fp1000_52, "d2.png")]
        (associate [((1000 : ℚ), "rgb1.png"), ((2001 / 2 : ℚ), "rgb2.png")]
          [(fp999_99, "d1.png"), (fp1000_52, "d2.png")] fp0_02) =
      some ["1000.000000 rgb1.png 999.990000 d1.png",
        "1000.500000 rgb2.png 1000.520000 d2.png"] := by
  refine ⟨writeAssocLines_length, ?_⟩
  have hassoc : associate [((1000 : ℚ), "rgb1.png"), ((2001 / 2 : ℚ), "rgb2.png")]
      [(fp999_99, "d1.png"), (fp1000_52, "d2.png")] fp0_02 = [(0, 0), (1, 1)] := by
    norm_num [associate, associateFrom, associateRow, findBest, rabs, ltInf,
      acceptBest, fp999_99, fp1000_52, fp0_02]
  rw [hassoc]
  have hw : writeAssocLines [((1000 : ℚ), "rgb1.png"), ((2001 / 2 : ℚ), "rgb2.png")]
      [(fp999_99, "d1.png"), (fp1000_52, "d2.png")] [(0, 0), (1, 1)] =
      some [fix6 1000 ++ " " ++ "rgb1.png" ++ " " ++ fix6 fp999_99 ++ " " ++ "d1.png",
        fix6 (2001 / 2) ++ " " ++ "rgb2.png" ++ " " ++ fix6 fp1000_52 ++ " " ++ "d2.png"] :=
    rfl
  rw [hw]
  have hf1 : fix6 (1000 : ℚ) = "1000.000000" := by
    have hn : rhe ((1000 : ℚ) * 1000000) = 1000000000 := by norm_num [rhe]
    unfold fix6
    rw [hn]
    rfl
  have hf2 : fix6 fp999_99 = "999.990000" := by
    have hn : rhe (fp999_99 * 1000000) = 999990000 := by norm_num [rhe, fp999_99]
    unfold fix6
    rw [hn]
    rfl
  have hf3 : fix6 ((2001 : ℚ) / 2) = "1000.500000" := by
    have hn : rhe ((2001 / 2 : ℚ) * 1000000) = 1000500000 := by norm_num [rhe]
    unfold fix6
    rw [hn]
    rfl
  have hf4 : fix6 fp1000_52 = "1000.520000" := by
    have hn : rhe (fp1000_52 * 1000000) = 1000520000 := by norm_num [rhe, fp1000_52]
    unfold fix6
    rw [hn]
    rfl
  rw [hf1, hf2, hf3, hf4]
  rfl

/-- Witness for C3: the one-line-per-association conjunct at a concrete
write. -/
theorem c3_end_to_end_witness :
    ([fix6 1 ++ " " ++ "a" ++ " " ++ fix6 1 ++ " " ++ "x"] : List String).length =
      ([((0 : ℕ), (0 : ℤ))] : List (ℕ × ℤ)).length :=
  c3_end_to_end.1 [((1 : ℚ), "a")] [((1 : ℚ), "x")] [(0, 0)]
    [fix6 1 ++ " " ++ "a" ++ " " ++ fix6 1 ++ " " ++ "x"] rfl

/-- The source's `MAX_DIFFERENCE = 0.02`, as the exact value of the
binary64 double. -/
def MAX_DIFFERENCE : ℚ := fp0_02

/-- Outcome of one run of the program: `read_file_list` calling
`sys.exit(1)` on a missing input file, `generate_associations` returning
`False` (then `sys.exit(1)` in `__main__`) on an empty record list, or a
successful run with the written output. -/
inductive RunResult where
  | missingFile (filename : String)
  | emptyLists
  | success (written : Option (List String))
deriving DecidableEq

/-- `generate_associations(data_dir)` with input files modelled as
`Option` lists of lines (`none`: the file does not exist).  The rgb file
is read first, so a missing rgb file aborts before the depth file is
read; the empty-list guard runs before any association or writing. -/
def runGenerate (rgbName depthName : String)
    (rgbFile depthFile : Option (List String)) : RunResult :=
  match rgbFile with
  | none => .missingFile rgbName
  | some rgbLines =>
    match depthFile with
    | none => .missingFile depthName
    | some depthLines =>
      if read_file_list rgbLines = [] ∨ read_file_list depthLines = [] then
        .emptyLists
      else
        .success (writeAssocLines (read_file_list rgbLines)
          (read_file_list depthLines)
          (associate (read_file_list rgbLines) (read_file_list depthLines)
            MAX_DIFFERENCE))

/-- Process exit status of a run: `sys.exit(1)` on a missing file, exit 1
from `__main__` when `generate_associations` returns `False`, 0 on
success. -/
def exitCode : RunResult → ℕ
  | .missingFile _ => 1
  | .emptyLists => 1
  | .success _ => 0

/-- The diagnostic printed by a failing run (the source's two distinct
error strings). -/
def errorMessage : RunResult → Option String
  | .missingFile filename => some ("Error: Input file not found: " ++ filename)
  | .emptyLists => some "Error: RGB or Depth list is empty. Cannot associate."
  | .success _ => none

/-- The output file's contents, `none` when the run never reached the
write phase. -/
def writtenOutput : RunResult → Option (List String)
  | .success w => w
  | _ => none

/-- The empty-list diagnostic differs from every missing-file diagnostic
(they differ at index 7: `R` vs `I`). -/
theorem emptyMsg_ne_missingMsg (f : String) :
    ("Error: RGB or Depth list is empty. Cannot associate." : String) ≠
      "Error: Input file not found: " ++ f := by
  obtain ⟨fd⟩ := f
  intro h
  have hdata : ("Error: RGB or Depth list is empty. Cannot associate." : String).data =
      ("Error: Input file not found: " : String).data ++ fd := by
    rw [h]
    rfl
  have h7 : (("Error: RGB or Depth list is empty. Cannot associate." : String).data).get? 7 =
      some 'R' := rfl
  rw [hdata] at h7
  rw [List.get?_append (by decide)] at h7
  exact absurd h7 (by decide)

/-- Claim C5: if either parsed record list is empty, the run aborts with a
non-zero exit status, its diagnostic is the empty-list message — distinct
from every missing-file diagnostic — and no output is written. -/
theorem c5_empty_list_guard (rgbName depthName : String)
    (rgbLines depthLines : List String)
    (h : read_file_list rgbLines = [] ∨ read_file_list depthLines = []) :
    runGenerate rgbName depthName (some rgbLines) (some depthLines) =
      RunResult.emptyLists ∧
    exitCode (runGenerate rgbName depthName (some rgbLines) (some depthLines)) ≠ 0 ∧
    writtenOutput (runGenerate rgbName depthName (some rgbLines) (some depthLines)) =
      none ∧
    errorMessage (runGenerate rgbName depthName (some rgbLines) (some depthLines)) =
      some "Error: RGB or Depth list is empty. Cannot associate." ∧
    (∀ f : String,
      errorMessage (runGenerate rgbName depthName (some rgbLines) (some depthLines)) ≠
        errorMessage (RunResult.missingFile f)) := by
  have hrun : runGenerate rgbName depthName (some rgbLines) (some depthLines) =
      RunResult.emptyLists := by
    unfold runGenerate
    dsimp only
    rw [if_pos h]
  refine ⟨hrun, ?_, ?_, ?_, ?_⟩
  · rw [hrun]; simp [exitCode]
  · rw [hrun]; rfl
  · rw [hrun]; rfl
  · intro f
    rw [hrun]
    simp only [errorMessage, Option.some.injEq, ne_eq]
    exact emptyMsg_ne_missingMsg f

/-- Witness for C5: the empty-list abort at a concrete pair of files (a
comment-only rgb file). -/
theorem c5_empty_list_guard_witness :
    runGenerate "rgb.txt" "depth.txt" (some ["# only a comment"])
      (some ["1.0 d1.png"]) = RunResult.emptyLists :=
  (c5_empty_list_guard "rgb.txt" "depth.txt" ["# only a comment"] ["1.0 d1.png"]
    (Or.inl rfl)).1

/-- Claim C7: a missing input file aborts the run with exit status 1 and a
diagnostic naming the missing file, before any output is written; the rgb
file is checked first, then the depth file. -/
theorem c7_missing_input_file (rgbName depthName : String) :
    (∀ depthFile : Option (List String),
      runGenerate rgbName depthName none depthFile =
        RunResult.missingFile rgbName ∧
      exitCode (runGenerate rgbName depthName none depthFile) = 1 ∧
      writtenOutput (runGenerate rgbName depthName none depthFile) = none ∧
      errorMessage (runGenerate rgbName depthName none depthFile) =
        some ("Error: Input file not found: " ++ rgbName)) ∧
    (∀ rgbLines : List String,
      runGenerate rgbName depthName (some rgbLines) none =
        RunResult.missingFile depthName ∧
      exitCode (runGenerate rgbName depthName (some rgbLines) none) = 1 ∧
      writtenOutput (runGenerate rgbName depthName (some rgbLines) none) = none ∧
      errorMessage (runGenerate rgbName depthName (some rgbLines) none) =
        some ("Error: Input file not found: " ++ depthName)) := by
  constructor
  · intro depthFile
    exact ⟨rfl, rfl, rfl, rfl⟩
  · intro rgbLines
    exact ⟨rfl, rfl, rfl, rfl⟩
